import Mathlib

/-!
Verification of the live log console module of
`src/renderer/src/components/proxy/ProxyDetailedLogsDialog.tsx`.

The development shallowly embeds the data model and the operations of the
component: log entries and their optional JSON payload, the filter engine
(`filteredLogs`), the category option list (`categories`), the export and
copy formatter (`formatLine`, `exportContent`), the fetch and clear
completion handlers (`loadLogsComplete`, `handleClearLogsComplete`), and a
small event machine (`step`, `run`) for the visibility and polling
lifecycle.   JavaScript strings are modelled as Lean strings, with
lowercasing and substring search made explicit; JavaScript truthiness of
the optional `data` payload is modelled by `jsTruthy`.
-/

/-- Model of a JavaScript JSON-serialisable value, covering the payloads that
can sit in the optional `data` field of a log entry.  Numbers are modelled
as integers, which matches every payload this development evaluates. -/
inductive Jsval where
  | jnull
  | bool (b : Bool)
  | num (n : Int)
  | str (s : String)
  | arr (elems : List Jsval)
  | obj (fields : List (String × Jsval))

/-- JavaScript truthiness of a value: `null`, `false`, `0` and the empty
string are falsy; arrays and objects are always truthy.  This is the test
the source performs with `log.data ? ... : ...` and `log.data && ...`. -/
def jsTruthy : Jsval → Bool
  | .jnull => false
  | .bool b => b
  | .num n => n != 0
  | .str s => s != ""
  | .arr _ => true
  | .obj _ => true

/-- JSON string escaping of one character, as performed by
`JSON.stringify` on the characters this development evaluates. -/
def jsQuoteChar (c : Char) : String :=
  if c = '"' then "\\\""
  else if c = '\\' then "\\\\"
  else if c = '\n' then "\\n"
  else if c = '\r' then "\\r"
  else if c = '\t' then "\\t"
  else String.mk [c]

/-- JSON quoting of a string: surrounding double quotes plus escaping. -/
def jsQuote (s : String) : String :=
  "\"" ++ String.join (s.data.map jsQuoteChar) ++ "\""

mutual
/-- Single-line JSON serialisation, modelling `JSON.stringify(v)` with no
indentation argument. -/
def jsStringify : Jsval → String
  | .jnull => "null"
  | .bool b => if b then "true" else "false"
  | .num n => toString n
  | .str s => jsQuote s
  | .arr elems => "[" ++ jsStringifyArr elems ++ "]"
  | .obj fields => "\x7b" ++ jsStringifyObj fields ++ "\x7d"

/-- Comma-joined serialisation of array elements. -/
def jsStringifyArr : List Jsval → String
  | [] => ""
  | [v] => jsStringify v
  | v :: rest => jsStringify v ++ "," ++ jsStringifyArr rest

/-- Comma-joined serialisation of object fields as `"key":value`. -/
def jsStringifyObj : List (String × Jsval) → String
  | [] => ""
  | [(k, v)] => jsQuote k ++ ":" ++ jsStringify v
  | (k, v) :: rest => jsQuote k ++ ":" ++ jsStringify v ++ "," ++ jsStringifyObj rest
end

/-- Lowercasing of a string, modelling `String.prototype.toLowerCase` on the
ASCII range (the only range the evaluated inputs use). -/
def lowerStr (s : String) : String := String.mk (s.data.map Char.toLower)

/-- Boolean substring test on character lists: `containsSub n h` is true
exactly when `n` occurs contiguously inside `h`.  At each position it asks
whether `n` is an initial segment of the remaining list. -/
def containsSub (needle : List Char) : List Char → Bool
  | [] => needle.isEmpty
  | c :: rest => needle.isPrefixOf (c :: rest) || containsSub needle rest

/-- Model of `hay.includes(needle)` on JavaScript strings. -/
def strContains (hay needle : String) : Bool := containsSub needle.data hay.data

/-- Lexicographic comparison of character lists by code point, modelling the
default comparator of `Array.prototype.sort` on strings (the two coincide
on the Basic Multilingual Plane). -/
def lexLe : List Char → List Char → Bool
  | [], _ => true
  | _ :: _, [] => false
  | a :: as, b :: bs =>
    if a.toNat < b.toNat then true
    else if b.toNat < a.toNat then false
    else lexLe as bs

/-- Lexicographic order on strings, as a Boolean function. -/
def strLe (s t : String) : Bool := lexLe s.data t.data

/-- Lexicographic order on strings, as a proposition, used to state
sortedness of the category option list. -/
def strLeP (s t : String) : Prop := strLe s t = true

instance : DecidableRel strLeP :=
  fun s t => inferInstanceAs (Decidable (strLe s t = true))

/-- A log record as produced by the log store (source lines 5 to 11):
textual timestamp, level, category and message, plus an optional
structured payload. -/
structure LogEntry where
  timestamp : String
  level : String
  category : String
  message : String
  data : Option Jsval

/-- The operator-controlled filter criteria: free text search, level filter
and category filter (source lines 93 to 95, initial values are the empty
string, "all" and "all"). -/
structure Criteria where
  searchText : String
  levelFilter : String
  categoryFilter : String

/-- Filter predicate of the filter engine, translated from the body of the
`logs.filter` callback at source lines 177 to 189.  Levels and categories
are compared exactly; a non-empty search text is lowercased and looked for
inside the lowercased message, the lowercased category, or — when the
`data` payload is present and truthy — the lowercased JSON serialisation
of the payload. -/
def filterPred (c : Criteria) (log : LogEntry) : Bool :=
  if c.levelFilter != "all" && log.level != c.levelFilter then false
  else if c.categoryFilter != "all" && log.category != c.categoryFilter then false
  else if c.searchText != "" then
    let search := lowerStr c.searchText
    strContains (lowerStr log.message) search ||
    strContains (lowerStr log.category) search ||
    (match log.data with
     | some d => jsTruthy d && strContains (lowerStr (jsStringify d)) search
     | none => false)
  else true

/-- The visible list: the snapshot filtered by the active criteria
(source line 177), preserving snapshot order. -/
def filteredLogs (logs : List LogEntry) (c : Criteria) : List LogEntry :=
  logs.filter (filterPred c)

/-- Deduplication scan keeping the first occurrence of every element, with
an accumulator of the elements already seen. -/
def jsSetDedupAux (seen : List String) : List String → List String
  | [] => []
  | x :: xs =>
      if x ∈ seen then jsSetDedupAux seen xs
      else x :: jsSetDedupAux (x :: seen) xs

/-- First-occurrence deduplication of a list, modelling the
`Array.from(new Set(...))` construction at source line 174. -/
def jsSetDedup (l : List String) : List String := jsSetDedupAux [] l

/-- The category filter options (source line 174): the distinct categories
of the full snapshot, sorted ascending by the default string comparator. -/
def categories (logs : List LogEntry) : List String :=
  List.insertionSort strLeP (jsSetDedup (logs.map (fun log => log.category)))

/-- One exported or copied line, the formatting performed inside
`handleExportLogs` (source lines 144 to 145) and named `formatLine` by the
module description: bracketed timestamp, level and category, the message,
and — only when the payload is present and truthy — a
`" | <json>"` suffix. -/
def formatLine (log : LogEntry) : String :=
  let dataStr := match log.data with
    | some d => if jsTruthy d then " | " ++ jsStringify d else ""
    | none => ""
  "[" ++ log.timestamp ++ "] [" ++ log.level ++ "] [" ++ log.category ++ "] " ++
    log.message ++ dataStr

/-- The text materialised by `handleExportLogs` (source lines 143 to 146):
the per-line formatting mapped over the component state `logs` — the full
snapshot — joined by newlines. -/
def exportContent (logs : List LogEntry) : String :=
  String.intercalate "\n" (logs.map (fun log =>
    let dataStr := match log.data with
      | some d => if jsTruthy d then " | " ++ jsStringify d else ""
      | none => ""
    "[" ++ log.timestamp ++ "] [" ++ log.level ++ "] [" ++ log.category ++ "] " ++
      log.message ++ dataStr))

/-- The component state of the console (source lines 91 to 97): the local
snapshot, the loading flag, the three filter criteria, the auto-scroll
flag and the expansion set of positions. -/
structure ConsoleState where
  logs : List LogEntry
  loading : Bool
  searchText : String
  levelFilter : String
  categoryFilter : String
  autoScroll : Bool
  expandedLogs : Finset ℕ

/-- Outcome of one `window.api.proxyGetLogs()` call: either a full snapshot
or a rejection (the store was unreachable). -/
inductive FetchResult where
  | ok (entries : List LogEntry)
  | err

/-- Outcome of one `window.api.proxyClearLogs()` call. -/
inductive ClearResult where
  | ok
  | err

/-- Effect of the completion of `loadLogs` (source lines 101 to 108) on the
component state: on success the snapshot is replaced wholesale by the
fetched list; on failure the error is only logged to the console and the
state is untouched. -/
def loadLogsComplete (st : ConsoleState) : FetchResult → ConsoleState
  | .ok entries => { st with logs := entries }
  | .err => st

/-- Effect of the completion of `handleClearLogs` (source lines 133 to 140)
on the component state: on success the snapshot is optimistically reset to
the empty list; on failure the error is only logged and the state is
untouched. -/
def handleClearLogsComplete (st : ConsoleState) : ClearResult → ConsoleState
  | .ok => { st with logs := [] }
  | .err => st

/-- Toggling of one expansion position (source lines 163 to 171): the index
is removed from the expansion set when present and inserted otherwise. -/
def toggleExpand (expandedLogs : Finset ℕ) (index : ℕ) : Finset ℕ :=
  if index ∈ expandedLogs then expandedLogs.erase index
  else insert index expandedLogs

/-- Events of the visibility and polling lifecycle (source lines 110 to
125): the dialog becomes visible (the effect body runs: an immediate fetch
starts and the interval is installed), the dialog becomes hidden (the
cleanup runs: the interval is cancelled), the interval fires (a poll fetch
starts only while the timer is installed), or an in-flight fetch
completes with a result or an error. -/
inductive Event where
  | becomeVisible
  | becomeHidden
  | tick
  | fetchOk (entries : List LogEntry)
  | fetchErr

/-- Lifecycle model: the local snapshot, whether the poll interval is
installed, and how many fetches are in flight. -/
structure Model where
  logs : List LogEntry
  timerActive : Bool
  inFlight : ℕ

/-- One lifecycle transition.  Becoming hidden cancels the timer but does
not cancel fetches already in flight; a completion applies `setLogs`
unconditionally — the source does not re-check visibility when the awaited
promise resolves. -/
def step (m : Model) : Event → Model
  | .becomeVisible => { m with timerActive := true, inFlight := m.inFlight + 1 }
  | .becomeHidden => { m with timerActive := false }
  | .tick => if m.timerActive then { m with inFlight := m.inFlight + 1 } else m
  | .fetchOk entries =>
      if 0 < m.inFlight then
        { logs := entries, timerActive := m.timerActive, inFlight := m.inFlight - 1 }
      else m
  | .fetchErr =>
      if 0 < m.inFlight then { m with inFlight := m.inFlight - 1 } else m

/-- Running a sequence of lifecycle events from a model. -/
def run (m : Model) (evs : List Event) : Model := evs.foldl step m

/-- Contiguous-substring relation on character lists, the specification
notion of one string occurring inside another. -/
def SubstrOf (needle hay : List Char) : Prop :=
  ∃ pre post, hay = pre ++ needle ++ post

/-- Specification reading of the free-text criterion, following the module
description word for word: the lowercased search text occurs in the
lowercased message, in the lowercased category, or — exactly when the
`data` field is present — in the lowercased JSON serialisation of the
payload. -/
def searchCriterionSpec (searchText : String) (log : LogEntry) : Prop :=
  SubstrOf (lowerStr searchText).data (lowerStr log.message).data ∨
  SubstrOf (lowerStr searchText).data (lowerStr log.category).data ∨
  (∃ d, log.data = some d ∧
    SubstrOf (lowerStr searchText).data (lowerStr (jsStringify d)).data)

/-- A Boolean initial-segment test succeeds exactly when the second list
extends the first. -/
theorem isPrefixOf_iff_append (n : List Char) :
    ∀ h : List Char, n.isPrefixOf h = true ↔ ∃ t, h = n ++ t := by
  induction n with
  | nil =>
    intro h
    simp [ List.isPrefixOf]
  | cons a as ih =>
    intro h
    cases h with
    | nil => simp [ List.isPrefixOf]
    | cons b bs =>
      simp only [ List.isPrefixOf, Bool.and_eq_true, beq_iff_eq, ih,
        List.cons_append, List.cons.injEq]
      constructor
      · rintro ⟨hab, t, ht⟩
        exact ⟨t, hab.symm, ht⟩
      · rintro ⟨t, hba, ht⟩
        exact ⟨hba.symm, t, ht⟩

/-- Correctness of the substring scan: `containsSub n h` succeeds exactly
when `n` occurs contiguously inside `h`. -/
theorem containsSub_iff (n : List Char) :
    ∀ h : List Char, containsSub n h = true ↔ SubstrOf n h := by
  intro h
  induction h with
  | nil =>
    simp only [containsSub, SubstrOf, List.isEmpty_iff]
    constructor
    · rintro rfl
      exact ⟨[], [], rfl⟩
    · rintro ⟨pre, post, hp⟩
      rcases List.append_eq_nil.mp (List.append_eq_nil.mp hp.symm).1 with ⟨-, h2⟩
      exact h2
  | cons c rest ih =>
    simp only [containsSub, Bool.or_eq_true, isPrefixOf_iff_append, ih, SubstrOf]
    constructor
    · rintro (⟨t, ht⟩ | ⟨pre, post, hp⟩)
      · exact ⟨[], t, by simpa using ht⟩
      · exact ⟨c :: pre, post, by simp [hp]⟩
    · rintro ⟨pre, post, hp⟩
      cases pre with
      | nil =>
        exact Or.inl ⟨post, by simpa using hp⟩
      | cons p ps =>
        simp only [List.cons_append, List.cons.injEq] at hp
        exact Or.inr ⟨ps, post, hp.2⟩

/-- Totality of the lexicographic comparison. -/
theorem lexLe_total : ∀ a b : List Char, lexLe a b = true ∨ lexLe b a = true := by
  intro a
  induction a with
  | nil => intro b; left; simp [lexLe]
  | cons x xs ih =>
    intro b
    cases b with
    | nil => right; simp [lexLe]
    | cons y ys =>
      rcases Nat.lt_trichotomy x.toNat y.toNat with hlt | heq | hgt
      · left; simp [lexLe, hlt]
      · have h1 : ¬ x.toNat < y.toNat := by omega
        have h2 : ¬ y.toNat < x.toNat := by omega
        rcases ih ys with h | h
        · left; simp [lexLe, h1, h2, h]
        · right; simp [lexLe, h1, h2, h]
      · right; simp [lexLe, hgt]

/-- Transitivity of the lexicographic comparison. -/
theorem lexLe_trans :
    ∀ a b c : List Char, lexLe a b = true → lexLe b c = true → lexLe a c = true := by
  intro a
  induction a with
  | nil => intro b c _ _; simp [lexLe]
  | cons x xs ih =>
    intro b c hab hbc
    cases b with
    | nil => simp [lexLe] at hab
    | cons y ys =>
      cases c with
      | nil => simp [lexLe] at hbc
      | cons z zs =>
        by_cases hxy : x.toNat < y.toNat
        · have hyz : y.toNat ≤ z.toNat := by
            by_contra hc
            have hzy : z.toNat < y.toNat := by omega
            have : ¬ y.toNat < z.toNat := by omega
            simp [lexLe, this, hzy] at hbc
          have hxz : x.toNat < z.toNat := by omega
          simp [lexLe, hxz]
        · by_cases hyx : y.toNat < x.toNat
          · simp [lexLe, hxy, hyx] at hab
          · have hxy2 : x.toNat = y.toNat := by omega
            simp only [lexLe, if_neg hxy, if_neg hyx] at hab
            by_cases hyz : y.toNat < z.toNat
            · have hxz : x.toNat < z.toNat := by omega
              simp [lexLe, hxz]
            · by_cases hzy : z.toNat < y.toNat
              · simp [lexLe, hyz, hzy] at hbc
              · have h1 : ¬ x.toNat < z.toNat := by omega
                have h2 : ¬ z.toNat < x.toNat := by omega
                simp only [lexLe, if_neg hyz, if_neg hzy] at hbc
                simp only [lexLe, if_neg h1, if_neg h2]
                exact ih ys zs hab hbc

instance : IsTotal String strLeP :=
  ⟨fun s t => lexLe_total s.data t.data⟩

instance : IsTrans String strLeP :=
  ⟨fun s t u hst htu => lexLe_trans s.data t.data u.data hst htu⟩

/-- The deduplication scan keeps exactly the input elements that are not in
the accumulator of already seen elements. -/
theorem mem_jsSetDedupAux :
    ∀ (l seen : List String) (a : String),
      a ∈ jsSetDedupAux seen l ↔ a ∈ l ∧ a ∉ seen := by
  intro l
  induction l with
  | nil => intro seen a; simp [jsSetDedupAux]
  | cons x xs ih =>
    intro seen a
    by_cases hx : x ∈ seen
    · rw [jsSetDedupAux, if_pos hx, ih]
      constructor
      · rintro ⟨ha, hns⟩
        exact ⟨List.mem_cons_of_mem _ ha, hns⟩
      · rintro ⟨ha, hns⟩
        rcases List.mem_cons.mp ha with rfl | ha2
        · exact absurd hx hns
        · exact ⟨ha2, hns⟩
    · rw [jsSetDedupAux, if_neg hx]
      simp only [List.mem_cons, ih, List.mem_cons]
      constructor
      · rintro (rfl | ⟨ha, hns⟩)
        · exact ⟨Or.inl rfl, hx⟩
        · exact ⟨Or.inr ha, fun hs => hns (Or.inr hs)⟩
      · rintro ⟨rfl | ha, hns⟩
        · exact Or.inl rfl
        · by_cases hax : a = x
          · exact Or.inl hax
          · exact Or.inr ⟨ha, fun hs => by
              rcases hs with hs1 | hs2
              · exact hax hs1
              · exact hns hs2⟩

/-- Deduplication keeps exactly the elements of the input list. -/
theorem mem_jsSetDedup (l : List String) (a : String) :
    a ∈ jsSetDedup l ↔ a ∈ l := by
  rw [jsSetDedup, mem_jsSetDedupAux]
  simp

/-- The deduplication scan produces a list without duplicates. -/
theorem nodup_jsSetDedupAux :
    ∀ l seen : List String, (jsSetDedupAux seen l).Nodup := by
  intro l
  induction l with
  | nil => intro seen; simp [jsSetDedupAux]
  | cons x xs ih =>
    intro seen
    by_cases hx : x ∈ seen
    · rw [jsSetDedupAux, if_pos hx]
      exact ih seen
    · rw [jsSetDedupAux, if_neg hx]
      refine List.nodup_cons.mpr ⟨fun hmem => ?_, ih (x :: seen)⟩
      exact ((mem_jsSetDedupAux _ _ _).mp hmem).2 (List.mem_cons_self x seen)

/-- Deduplication produces a list without duplicates. -/
theorem nodup_jsSetDedup (l : List String) : (jsSetDedup l).Nodup :=
  nodup_jsSetDedupAux l []

/-- Claim C5: for every snapshot and every filter criteria, the visible list
is a subsequence of the snapshot — every visible entry occurs in the
snapshot and the visible entries keep their original relative order, with
no secondary sort. -/
theorem c5_visible_subsequence :
    ∀ (logs : List LogEntry) (c : Criteria),
      (filteredLogs logs c).Sublist logs ∧
      ∀ e ∈ filteredLogs logs c, e ∈ logs :=
  fun logs _ =>
    ⟨List.filter_sublist logs, fun _ he => (List.filter_sublist logs).subset he⟩

/-- Claim C6: filtering with the identity criteria — level filter "all",
category filter "all" and empty search text — returns the snapshot itself,
exactly and in full. -/
theorem c6_identity_filter :
    ∀ logs : List LogEntry,
      filteredLogs logs
        { searchText := "", levelFilter := "all", categoryFilter := "all" } = logs := by
  intro logs
  have hp : ∀ log : LogEntry,
      filterPred ⟨"", "all", "all"⟩ log = true := by
    intro log
    simp [filterPred]
  exact List.filter_eq_self.mpr (fun a _ => hp a)

/-- Claim C9: replacing the snapshot on a successful fetch is wholesale —
the new snapshot is exactly the fetched list — and leaves the search text,
the level filter, the category filter and the expansion set exactly
unchanged. -/
theorem c9_snapshot_replacement_frame :
    ∀ (st : ConsoleState) (entries : List LogEntry),
      (loadLogsComplete st (FetchResult.ok entries)).logs = entries ∧
      (loadLogsComplete st (FetchResult.ok entries)).searchText = st.searchText ∧
      (loadLogsComplete st (FetchResult.ok entries)).levelFilter = st.levelFilter ∧
      (loadLogsComplete st (FetchResult.ok entries)).categoryFilter = st.categoryFilter ∧
      (loadLogsComplete st (FetchResult.ok entries)).expandedLogs = st.expandedLogs :=
  fun _ _ => ⟨rfl, rfl, rfl, rfl, rfl⟩

/-- Claim C4: a successful clear resets the local snapshot to empty
immediately while leaving every other piece of state unchanged; a failed
clear and a failed fetch leave the whole state exactly unchanged, so no
blocking error state is ever entered. -/
theorem c4_clear_optimistic_and_failure_frames :
    ∀ st : ConsoleState,
      (handleClearLogsComplete st ClearResult.ok).logs = [] ∧
      (handleClearLogsComplete st ClearResult.ok).searchText = st.searchText ∧
      (handleClearLogsComplete st ClearResult.ok).levelFilter = st.levelFilter ∧
      (handleClearLogsComplete st ClearResult.ok).categoryFilter = st.categoryFilter ∧
      (handleClearLogsComplete st ClearResult.ok).expandedLogs = st.expandedLogs ∧
      handleClearLogsComplete st ClearResult.err = st ∧
      loadLogsComplete st FetchResult.err = st :=
  fun _ => ⟨rfl, rfl, rfl, rfl, rfl, rfl, rfl⟩

/-- Claim C8: the category filter options are the distinct category values
of the full snapshot, sorted ascending and without duplicates; on the
snapshot with categories b, a, a, c the options are a, b, c. -/
theorem c8_category_options :
    (∀ logs : List LogEntry,
      List.Sorted strLeP (categories logs) ∧
      (categories logs).Nodup ∧
      (∀ c, c ∈ categories logs ↔ c ∈ logs.map (fun log => log.category))) ∧
    categories [⟨"t1", "INFO", "b", "m1", none⟩, ⟨"t2", "WARN", "a", "m2", none⟩,
      ⟨"t3", "INFO", "a", "m3", none⟩, ⟨"t4", "DEBUG", "c", "m4", none⟩] =
      ["a", "b", "c"] := by
  constructor
  · intro logs
    have hperm :=
      List.perm_insertionSort strLeP (jsSetDedup (logs.map (fun log => log.category)))
    refine ⟨List.sorted_insertionSort strLeP _, ?_, ?_⟩
    · exact hperm.nodup_iff.mpr (nodup_jsSetDedup _)
    · intro c
      exact hperm.mem_iff.trans (mem_jsSetDedup _ _)
  · decide

/-- Claim C10: every category offered in the filter options comes from some
snapshot entry, so selecting it with level filter "all" and empty search
text yields a non-empty visible list. -/
theorem c10_listed_category_nonempty :
    ∀ (logs : List LogEntry) (c : String), c ∈ categories logs →
      filteredLogs logs
        { searchText := "", levelFilter := "all", categoryFilter := c } ≠ [] := by
  intro logs c hc
  have hperm :=
    List.perm_insertionSort strLeP (jsSetDedup (logs.map (fun log => log.category)))
  have hmem : c ∈ logs.map (fun log => log.category) :=
    (mem_jsSetDedup _ _).mp (hperm.mem_iff.mp hc)
  rcases List.mem_map.mp hmem with ⟨e, he, hcat⟩
  have hpred : filterPred ⟨"", "all", c⟩ e = true := by
    simp [filterPred, hcat]
  exact List.ne_nil_of_mem (List.mem_filter.mpr ⟨he, hpred⟩)

/-- Witness for claim C10 at a concrete snapshot: the category "auth" is
offered and selecting it yields a non-empty visible list. -/
theorem c10_listed_category_nonempty_witness :
    ("auth" ∈ categories [⟨"t", "INFO", "auth", "m", none⟩]) ∧
    filteredLogs [⟨"t", "INFO", "auth", "m", none⟩]
      { searchText := "", levelFilter := "all", categoryFilter := "auth" } ≠ [] :=
  ⟨by decide, c10_listed_category_nonempty _ _ (by decide)⟩

/-- Counterexample to claim C1: on a two-entry snapshot where the level
filter keeps only the first entry, the export text is not the
newline-join of the formatted visible entries — the export handler maps
over the full snapshot, not the filtered view. -/
theorem c1_export_filtered_counterexample :
    filteredLogs [⟨"t1", "ERROR", "auth", "boom", none⟩, ⟨"t2", "INFO", "net", "ok", none⟩]
      { searchText := "", levelFilter := "ERROR", categoryFilter := "all" } =
      [⟨"t1", "ERROR", "auth", "boom", none⟩] ∧
    exportContent [⟨"t1", "ERROR", "auth", "boom", none⟩, ⟨"t2", "INFO", "net", "ok", none⟩] ≠
      String.intercalate "\n"
        ((filteredLogs
            [⟨"t1", "ERROR", "auth", "boom", none⟩, ⟨"t2", "INFO", "net", "ok", none⟩]
            { searchText := "", levelFilter := "ERROR", categoryFilter := "all" }).map
          formatLine) :=
  ⟨rfl, by decide⟩

/-- Claim C1 as amended: the export operation produces the newline-join of
`formatLine` over the full snapshot in snapshot order, regardless of the
currently active filter criteria. -/
theorem c1_export_full_snapshot :
    ∀ logs : List LogEntry,
      exportContent logs = String.intercalate "\n" (logs.map formatLine) :=
  fun _ => rfl

/-- Counterexample to claim C7: for an entry whose `data` field is present
but falsy (the JSON value `false`), the formatted line carries no
`" | ..."` suffix, although the claim requires the suffix exactly when
`data` is present. -/
theorem c7_format_presence_counterexample :
    (LogEntry.data ⟨"t", "INFO", "sys", "flag", some (Jsval.bool false)⟩).isSome = true ∧
    formatLine ⟨"t", "INFO", "sys", "flag", some (Jsval.bool false)⟩ =
      "[t] [INFO] [sys] flag" ∧
    formatLine ⟨"t", "INFO", "sys", "flag", some (Jsval.bool false)⟩ ≠
      "[t] [INFO] [sys] flag | false" :=
  ⟨rfl, by decide, by decide⟩

/-- Claim C7 as amended: `formatLine` returns
`"[<timestamp>] [<level>] [<category>] <message>"` with
`" | <single-line JSON of data>"` appended exactly when `data` is present
and truthy in the JavaScript sense; an entry without `data`, or with a
falsy payload, carries no suffix.  The concrete scenario of the claim
holds as stated. -/
theorem c7_format_truthy_data :
    (∀ t l c m : String,
      formatLine ⟨t, l, c, m, none⟩ =
        "[" ++ t ++ "] [" ++ l ++ "] [" ++ c ++ "] " ++ m ∧
      (∀ d : Jsval, jsTruthy d = true →
        formatLine ⟨t, l, c, m, some d⟩ =
          "[" ++ t ++ "] [" ++ l ++ "] [" ++ c ++ "] " ++ m ++ " | " ++ jsStringify d) ∧
      (∀ d : Jsval, jsTruthy d = false →
        formatLine ⟨t, l, c, m, some d⟩ =
          "[" ++ t ++ "] [" ++ l ++ "] [" ++ c ++ "] " ++ m)) ∧
    formatLine ⟨"2024-01-01T00:00:00.000Z", "ERROR", "auth", "failed",
        some (Jsval.obj [("code", Jsval.num 401)])⟩ =
      "[2024-01-01T00:00:00.000Z] [ERROR] [auth] failed | \x7b\"code\":401\x7d" := by
  constructor
  · intro t l c m
    refine ⟨by simp [formatLine], ?_, ?_⟩
    · intro d hd
      simp [formatLine, hd, String.append_assoc]
    · intro d hd
      simp [formatLine, hd]
  · decide

/-- Witness for claim C7 as amended, at a concrete truthy payload. -/
theorem c7_format_truthy_data_witness :
    jsTruthy (Jsval.num 7) = true ∧
    formatLine ⟨"t", "L", "C", "M", some (Jsval.num 7)⟩ = "[t] [L] [C] M | 7" := by
  refine ⟨by decide, ?_⟩
  rw [(c7_format_truthy_data.1 "t" "L" "C" "M").2.1 (Jsval.num 7) (by decide)]
  decide

/-- Counterexample to claim C3: an entry whose `data` field is present but
falsy (the JSON value `0`) satisfies the claimed text criterion for the
search text "0" — the lowercase search text occurs in the JSON
serialisation of the present payload — yet the implemented filter
rejects the entry, because the code only consults `data` when it is
truthy. -/
theorem c3_search_presence_counterexample :
    searchCriterionSpec "0" ⟨"t", "INFO", "auth", "request", some (Jsval.num 0)⟩ ∧
    filterPred { searchText := "0", levelFilter := "all", categoryFilter := "all" }
      ⟨"t", "INFO", "auth", "request", some (Jsval.num 0)⟩ = false :=
  ⟨Or.inr (Or.inr ⟨Jsval.num 0, rfl, [], [], by decide⟩), by decide⟩

/-- Claim C3 as amended: with level and category filters at "all" and a
non-empty search text, an entry passes the filter exactly when the
lowercase search text occurs in the lowercase message, in the lowercase
category, or — when the `data` field is present and truthy in the
JavaScript sense — in the lowercase JSON serialisation of the payload. -/
theorem c3_search_truthy_iff :
    ∀ (log : LogEntry) (search : String), search ≠ "" →
      (filterPred { searchText := search, levelFilter := "all", categoryFilter := "all" }
          log = true ↔
        (SubstrOf (lowerStr search).data (lowerStr log.message).data ∨
         SubstrOf (lowerStr search).data (lowerStr log.category).data ∨
         (∃ d, log.data = some d ∧ jsTruthy d = true ∧
           SubstrOf (lowerStr search).data (lowerStr (jsStringify d)).data))) := by
  intro log search hs
  have hs2 : (search != "") = true := bne_iff_ne.mpr hs
  cases hld : log.data with
  | none =>
    simp [filterPred, hs2, hld, strContains, containsSub_iff]
  | some d =>
    simp [filterPred, hs2, hld, strContains, containsSub_iff, and_assoc, or_assoc]

/-- Witness for claim C3 as amended: the case-insensitive search "ERR"
matches an entry whose message contains "Error connecting". -/
theorem c3_search_truthy_iff_witness :
    ("ERR" : String) ≠ "" ∧
    (filterPred { searchText := "ERR", levelFilter := "all", categoryFilter := "all" }
        ⟨"t", "ERROR", "net", "Error connecting", none⟩ = true ↔
      (SubstrOf (lowerStr "ERR").data (lowerStr "Error connecting").data ∨
       SubstrOf (lowerStr "ERR").data (lowerStr "net").data ∨
       (∃ d, (none : Option Jsval) = some d ∧ jsTruthy d = true ∧
         SubstrOf (lowerStr "ERR").data (lowerStr (jsStringify d)).data))) :=
  ⟨by decide,
    c3_search_truthy_iff ⟨"t", "ERROR", "net", "Error connecting", none⟩ "ERR" (by decide)⟩

/-- Counterexample to claim C2: from a console with an empty snapshot, the
trace "become visible (a fetch starts), become hidden (the timer is
cancelled, the fetch stays in flight), the fetch completes" ends with the
completion replacing the local snapshot — visible state is mutated after
the hidden transition completed. -/
theorem c2_stale_fetch_counterexample :
    (run ⟨[], false, 0⟩ [Event.becomeVisible, Event.becomeHidden]).timerActive = false ∧
    (run ⟨[], false, 0⟩ [Event.becomeVisible, Event.becomeHidden]).inFlight = 1 ∧
    (run ⟨[], false, 0⟩ [Event.becomeVisible, Event.becomeHidden]).logs = [] ∧
    (run ⟨[], false, 0⟩ [Event.becomeVisible, Event.becomeHidden,
        Event.fetchOk [⟨"t", "INFO", "net", "late", none⟩]]).logs =
      [⟨"t", "INFO", "net", "late", none⟩] :=
  ⟨rfl, rfl, rfl, rfl⟩

/-- Timer-off runs of pure interval events change nothing: once the poll
timer is cancelled, tick events are no-ops. -/
theorem run_ticks_fixed :
    ∀ (evs : List Event) (m : Model), m.timerActive = false →
      (∀ e ∈ evs, e = Event.tick) → run m evs = m := by
  intro evs
  induction evs with
  | nil => intro m _ _; rfl
  | cons e rest ih =>
    intro m hm he
    have h1 : e = Event.tick := he e (List.mem_cons_self e rest)
    subst h1
    have hstep : step m Event.tick = m := by
      simp [step, hm]
    show List.foldl step m (Event.tick :: rest) = m
    rw [List.foldl_cons, hstep]
    exact ih m hm (fun e2 he2 => he e2 (List.mem_cons_of_mem _ he2))

/-- Claim C2 as amended: the hidden transition cancels the interval timer,
so interval events after teardown start no fetch and leave the model
unchanged; however, a fetch already in flight when the console became
hidden is not discarded — its completion still replaces the local
snapshot. -/
theorem c2_teardown_amended :
    ∀ (m : Model) (evs : List Event) (entries : List LogEntry),
      (∀ e ∈ evs, e = Event.tick) →
      ((step m Event.becomeHidden).timerActive = false ∧
       run (step m Event.becomeHidden) evs = step m Event.becomeHidden ∧
       (0 < m.inFlight →
         (step (step m Event.becomeHidden) (Event.fetchOk entries)).logs = entries)) := by
  intro m evs entries hticks
  refine ⟨rfl, run_ticks_fixed evs _ rfl hticks, ?_⟩
  intro hin
  simp [step, hin]

/-- Witness for claim C2 as amended, at a concrete model with one fetch in
flight and two interval events after the hidden transition. -/
theorem c2_teardown_amended_witness :
    (∀ e ∈ [Event.tick, Event.tick], e = Event.tick) ∧
    0 < (⟨[], true, 1⟩ : Model).inFlight ∧
    ((step (⟨[], true, 1⟩ : Model) Event.becomeHidden).timerActive = false ∧
     run (step (⟨[], true, 1⟩ : Model) Event.becomeHidden) [Event.tick, Event.tick] =
       step (⟨[], true, 1⟩ : Model) Event.becomeHidden ∧
     (0 < (⟨[], true, 1⟩ : Model).inFlight →
       (step (step (⟨[], true, 1⟩ : Model) Event.becomeHidden)
           (Event.fetchOk [⟨"t", "INFO", "net", "late", none⟩])).logs =
         [⟨"t", "INFO", "net", "late", none⟩])) := by
  have hticks : ∀ e ∈ [Event.tick, Event.tick], e = Event.tick := by
    intro e he
    simp only [List.mem_cons, List.not_mem_nil, or_false] at he
    rcases he with h | h <;> exact h
  exact ⟨hticks, by decide,
    c2_teardown_amended ⟨[], true, 1⟩ [Event.tick, Event.tick] _ hticks⟩
